import Mathlib

/-!
Verification development for the PeperAI ANFIS core
(`backend/app/utils/anfis_trainer.py`, `backend/app/utils/dataset_trainer.py`,
`backend/app/utils/active_learning.py`, and the probability normalization in
`backend/app/main.py`).

The Python code is embedded shallowly over the real numbers: numpy arrays of
parameters become functions `ℕ → ℕ → ℝ`, batches become a sample count plus an
indexing function, and the training loops become structural recursion over the
epoch / iteration counts.  Exceptions are modelled with `Option`.
-/

noncomputable section

open scoped Classical

/-- Training history of a model: the four per-epoch lists appended by
`ANFISModel.train` (`loss`, `val_loss`, `accuracy`, `val_accuracy`). -/
structure History where
  loss : List ℝ
  val_loss : List ℝ
  accuracy : List ℝ
  val_accuracy : List ℝ

/-- The empty history created by `ANFISModel.__init__`. -/
def History.empty : History := ⟨[], [], [], []⟩

/-- State of an `ANFISModel`: the three hyperparameters, the Gaussian
membership parameters (`membership_params[f'input_{i}_centers']` becomes
`centers i`, and likewise for widths), the Takagi-Sugeno consequents
(`rule_consequents[i][d]` becomes `consequents i d`, with `d = n_inputs` the
bias entry), and the training history. -/
structure Model where
  n_inputs : ℕ
  n_rules : ℕ
  n_mfs : ℕ
  centers : ℕ → ℕ → ℝ
  widths : ℕ → ℕ → ℝ
  consequents : ℕ → ℕ → ℝ
  history : History

/-- Entry `j` of `np.linspace(0, 1, n)`; for `n = 1` numpy returns `[0.0]`. -/
def linspace01 (n j : ℕ) : ℝ := if n ≤ 1 then 0 else (j : ℝ) / ((n : ℝ) - 1)

/-- The model built by `ANFISModel.__init__`: centers evenly spaced on `[0,1]`,
widths all `0.2`, and consequents `np.random.randn(...) * 0.1`, where `rand`
stands for the concrete standard-normal draw of that run. -/
def initModel (nIn nR nMf : ℕ) (rand : ℕ → ℕ → ℝ) : Model :=
  { n_inputs := nIn
    n_rules := nR
    n_mfs := nMf
    centers := fun _ j => linspace01 nMf j
    widths := fun _ _ => 0.2
    consequents := fun i d => rand i d * 0.1
    history := History.empty }

/-- Source `gaussian_membership`: `exp(-0.5 * ((x - center) / width) ** 2)`. -/
def gaussian_membership (x center width : ℝ) : ℝ :=
  Real.exp (-(1/2) * ((x - center) / width) ^ 2)

/-- Membership degree of input `i` under membership function `j` for one
sample `xv`, as computed by `calculate_membership_degrees`. -/
def membershipDegree (m : Model) (xv : ℕ → ℝ) (i j : ℕ) : ℝ :=
  gaussian_membership (xv i) (m.centers i j) (m.widths i j)

/-- Inner loop of `generate_rules` for one assigned rule `r`: the strength
starts at the `np.ones` initialization `1`; input `0` overwrites it with its
degree at membership function `r / n_mfs`, input `1` multiplies by its degree
at membership function `r % n_mfs`, and every further input multiplies by its
degree at membership function `0`.  (The source enumerates grid cells `(i, j)`
in row-major order while `rule_idx` counts up from `0`, so the cell of rule
`r` is `(r / n_mfs, r % n_mfs)`.) -/
def strengthLoop (m : Model) (xv : ℕ → ℝ) (r : ℕ) : ℝ :=
  (List.range m.n_inputs).foldl
    (fun acc k =>
      if k = 0 then membershipDegree m xv 0 (r / m.n_mfs)
      else if k = 1 then acc * membershipDegree m xv 1 (r % m.n_mfs)
      else acc * membershipDegree m xv k 0)
    1

/-- Source `generate_rules`, value of rule `r` for one sample.  The double
loop over `(i, j)` with the early `break` assigns grid strengths only to the
first `min n_rules (n_mfs * n_mfs)` rules; any remaining rule keeps the
`np.ones` initialization `1`. -/
def generate_rules (m : Model) (xv : ℕ → ℝ) (r : ℕ) : ℝ :=
  if r < m.n_rules ∧ r < m.n_mfs * m.n_mfs then strengthLoop m xv r else 1

/-- Source `calculate_rule_outputs`: the Takagi-Sugeno linear output
`np.dot(x, params[:-1]) + params[-1]` of rule `r`. -/
def rule_output (m : Model) (xv : ℕ → ℝ) (r : ℕ) : ℝ :=
  (∑ d ∈ Finset.range m.n_inputs, m.consequents r d * xv d) + m.consequents r m.n_inputs

/-- Numerator `np.sum(rule_strengths * rule_outputs, axis=1)` of `forward_pass`. -/
def weightedSum (m : Model) (xv : ℕ → ℝ) : ℝ :=
  ∑ r ∈ Finset.range m.n_rules, generate_rules m xv r * rule_output m xv r

/-- Denominator `np.sum(rule_strengths, axis=1)` of `forward_pass`. -/
def strengthSum (m : Model) (xv : ℕ → ℝ) : ℝ :=
  ∑ r ∈ Finset.range m.n_rules, generate_rules m xv r

/-- The denominator actually divided by in `forward_pass`:
`np.where(rule_strength_sum == 0, 1e-10, rule_strength_sum)`. -/
def strengthDenom (m : Model) (xv : ℕ → ℝ) : ℝ :=
  if strengthSum m xv = 0 then 1e-10 else strengthSum m xv

/-- Logistic squash `1 / (1 + np.exp(-output))` applied at the end of
`forward_pass`. -/
def sigmoid (z : ℝ) : ℝ := 1 / (1 + Real.exp (-z))

/-- Source `forward_pass` for one sample: weighted average of rule outputs
with the epsilon-guarded denominator, then the sigmoid. -/
def forward_pass (m : Model) (xv : ℕ → ℝ) : ℝ :=
  sigmoid (weightedSum m xv / strengthDenom m xv)

/-- Source `predict_proba` (returns the raw `forward_pass` output). -/
def predict_proba (m : Model) (xv : ℕ → ℝ) : ℝ := forward_pass m xv

/-- Source `predict`, per sample: `(y_pred > 0.5).astype(int)`, kept in `ℝ`. -/
def predictBin (m : Model) (xv : ℕ → ℝ) : ℝ :=
  if 1/2 < forward_pass m xv then 1 else 0

/-- Mean over a batch of `n` samples, as computed by `np.mean`. -/
def batchMean (n : ℕ) (f : ℕ → ℝ) : ℝ := (∑ k ∈ Finset.range n, f k) / n

/-- The clipping `np.clip(y_pred, 1e-15, 1 - 1e-15)` applied in
`backward_pass` before the loss and the gradients are formed. -/
def clipPred (p : ℝ) : ℝ := min (max p 1e-15) (1 - 1e-15)

/-- The clipped prediction of sample `k` used throughout `backward_pass`. -/
def clippedPred (m : Model) (X : ℕ → ℕ → ℝ) (k : ℕ) : ℝ :=
  clipPred (forward_pass m (X k))

/-- Source `grad_output = (y_pred - y_true) / len(y_true)` for sample `k`
(note the division by the batch size happening already here). -/
def gradOutput (m : Model) (n : ℕ) (X : ℕ → ℕ → ℝ) (y : ℕ → ℝ) (k : ℕ) : ℝ :=
  (clippedPred m X k - y k) / n

/-- Binary cross-entropy loss computed (and returned) by `backward_pass`:
`-np.mean(y*log(pred) + (1-y)*log(1-pred))` on the clipped predictions. -/
def bceLoss (m : Model) (n : ℕ) (X : ℕ → ℕ → ℝ) (y : ℕ → ℝ) : ℝ :=
  -(batchMean n (fun k =>
      y k * Real.log (clippedPred m X k) +
      (1 - y k) * Real.log (1 - clippedPred m X k)))

/-- New center of `(input i, membership function j)` after one `backward_pass`
on the batch `(n, X, y)`:
`centers[j] -= lr * np.mean(grad_output * degrees[:, j] * (x[:, i] - centers[j]) / widths[j]**2)`.
All quantities on the right are read from the pre-update model (the degrees
come from the forward cache). -/
def newCenter (m : Model) (n : ℕ) (X : ℕ → ℕ → ℝ) (y : ℕ → ℝ) (lr : ℝ) (i j : ℕ) : ℝ :=
  m.centers i j - lr * batchMean n (fun k =>
    gradOutput m n X y k * membershipDegree m (X k) i j *
      (X k i - m.centers i j) / m.widths i j ^ 2)

/-- New width of `(input i, membership function j)` after one `backward_pass`:
the gradient uses the cached degrees, the old width, and — because the center
entry was already overwritten in place — the freshly updated center; the
result is clamped from below by `max(widths[j], 0.01)`. -/
def newWidth (m : Model) (n : ℕ) (X : ℕ → ℕ → ℝ) (y : ℕ → ℝ) (lr : ℝ) (i j : ℕ) : ℝ :=
  max
    (m.widths i j - lr * batchMean n (fun k =>
      gradOutput m n X y k * membershipDegree m (X k) i j *
        (X k i - newCenter m n X y lr i j) ^ 2 / m.widths i j ^ 3))
    0.01

/-- Source `backward_pass` (one gradient step on one batch), returning the
updated model.  Consequent entry `d` of rule `i` (`d = n_inputs` is the bias)
moves by `-lr * np.mean(grad_output * rule_strengths[:, i] * x[:, d])`
(resp. `* 1` for the bias); membership parameters move per `newCenter` /
`newWidth`.  Entries outside the loop ranges are untouched. -/
def backward_pass (m : Model) (n : ℕ) (X : ℕ → ℕ → ℝ) (y : ℕ → ℝ) (lr : ℝ) : Model :=
  { m with
    consequents := fun i d =>
      if i < m.n_rules ∧ d ≤ m.n_inputs then
        m.consequents i d - lr * batchMean n (fun k =>
          gradOutput m n X y k * generate_rules m (X k) i *
            (if d < m.n_inputs then X k d else 1))
      else m.consequents i d
    centers := fun i j =>
      if i < m.n_inputs ∧ j < m.n_mfs then newCenter m n X y lr i j
      else m.centers i j
    widths := fun i j =>
      if i < m.n_inputs ∧ j < m.n_mfs then newWidth m n X y lr i j
      else m.widths i j }

/-- Validation loss computed in `train` after each epoch:
`-np.mean(y*log(pred + 1e-15) + (1-y)*log(1 - pred + 1e-15))` on the raw
(unclipped) predictions of the current model. -/
def valLoss (m : Model) (n : ℕ) (X : ℕ → ℕ → ℝ) (y : ℕ → ℝ) : ℝ :=
  -(batchMean n (fun k =>
      y k * Real.log (forward_pass m (X k) + 1e-15) +
      (1 - y k) * Real.log (1 - forward_pass m (X k) + 1e-15)))

/-- Fraction of matching labels, as computed by `accuracy_score` on the
thresholded predictions. -/
def accuracyOn (m : Model) (n : ℕ) (X : ℕ → ℕ → ℝ) (y : ℕ → ℝ) : ℝ :=
  batchMean n (fun k => if predictBin m (X k) = y k then 1 else 0)

/-- Number of mini-batches per epoch: `(n_samples + batch_size - 1) // batch_size`. -/
def numBatches (n bs : ℕ) : ℕ := (n + bs - 1) / bs

/-- One epoch's mini-batch loop of `train`: fold `backward_pass` over the
fixed-size slices of the (already shuffled) data, accumulating the batch
losses.  Batch `b` covers shuffled samples `[b*bs, min (b*bs + bs) n)`. -/
def runBatches (m : Model) (n : ℕ) (X : ℕ → ℕ → ℝ) (y : ℕ → ℝ) (lr : ℝ) (bs : ℕ) :
    Model × ℝ :=
  (List.range (numBatches n bs)).foldl
    (fun acc b =>
      (backward_pass acc.1 (min (b * bs + bs) n - b * bs)
         (fun k => X (b * bs + k)) (fun k => y (b * bs + k)) lr,
       acc.2 + bceLoss acc.1 (min (b * bs + bs) n - b * bs)
         (fun k => X (b * bs + k)) (fun k => y (b * bs + k))))
    (m, 0)

/-- One epoch of `train` for a given shuffle `perm` of the training indices:
run the mini-batch loop on the permuted data, append the epoch's four history
entries, and return the new model together with this epoch's validation loss. -/
def epochStep (perm : ℕ → ℕ) (n : ℕ) (X : ℕ → ℕ → ℝ) (y : ℕ → ℝ)
    (nVal : ℕ) (Xval : ℕ → ℕ → ℝ) (yval : ℕ → ℝ) (lr : ℝ) (bs : ℕ)
    (m : Model) : Model × ℝ :=
  let m1 := (runBatches m n (fun k => X (perm k)) (fun k => y (perm k)) lr bs).1
  let tl := (runBatches m n (fun k => X (perm k)) (fun k => y (perm k)) lr bs).2 /
    (numBatches n bs : ℝ)
  let vl := valLoss m1 nVal Xval yval
  ({ m1 with history :=
      { loss := m1.history.loss ++ [tl]
        val_loss := m1.history.val_loss ++ [vl]
        accuracy := m1.history.accuracy ++ [accuracyOn m1 n X y]
        val_accuracy := m1.history.val_accuracy ++ [accuracyOn m1 nVal Xval yval] } },
   vl)

/-- A best-validation-loss snapshot: the value of `best_val_loss` together
with the snapshotted centers, widths and consequents (the values those
parameters had when the snapshot was taken). -/
structure Snapshot where
  val : ℝ
  centers : ℕ → ℕ → ℝ
  widths : ℕ → ℕ → ℝ
  consequents : ℕ → ℕ → ℝ

/-- Loop state of `train`: the live model, the best snapshot (`none` encodes
`best_weights is None` together with `best_val_loss = inf`), and the patience
counter. -/
structure TrainState where
  model : Model
  best : Option Snapshot
  patienceCtr : ℕ

/-- The early-stopping bookkeeping at the end of each epoch: if the epoch's
validation loss beats the best seen, snapshot the current parameters and reset
the patience counter, otherwise increment it. -/
def updateBest (m : Model) (vl : ℝ) (s : TrainState) : TrainState :=
  match s.best with
  | none =>
      { model := m, best := some ⟨vl, m.centers, m.widths, m.consequents⟩, patienceCtr := 0 }
  | some snap =>
      if vl < snap.val then
        { model := m, best := some ⟨vl, m.centers, m.widths, m.consequents⟩, patienceCtr := 0 }
      else
        { model := m, best := s.best, patienceCtr := s.patienceCtr + 1 }

/-- The epoch loop of `train`: run up to `rem` more epochs (epoch indices
continuing from `e`, which selects the shuffle `perms e`), breaking as soon
as the patience counter reaches `patience`. -/
def trainEpochs (perms : ℕ → ℕ → ℕ) (n : ℕ) (X : ℕ → ℕ → ℝ) (y : ℕ → ℝ)
    (nVal : ℕ) (Xval : ℕ → ℕ → ℝ) (yval : ℕ → ℝ) (lr : ℝ) (bs : ℕ)
    (patience : ℕ) : ℕ → ℕ → TrainState → TrainState
  | 0, _, s => s
  | rem + 1, e, s =>
      let step := epochStep (perms e) n X y nVal Xval yval lr bs s.model
      let s1 := updateBest step.1 step.2 s
      if patience ≤ s1.patienceCtr then s1
      else trainEpochs perms n X y nVal Xval yval lr bs patience rem (e + 1) s1

/-- The full epoch loop of `ANFISModel.train` starting from the freshly
initialized state. -/
def trainLoop (m0 : Model) (perms : ℕ → ℕ → ℕ) (n : ℕ) (X : ℕ → ℕ → ℝ) (y : ℕ → ℝ)
    (nVal : ℕ) (Xval : ℕ → ℕ → ℝ) (yval : ℕ → ℝ)
    (epochs : ℕ) (lr : ℝ) (patience : ℕ) (bs : ℕ) : TrainState :=
  trainEpochs perms n X y nVal Xval yval lr bs patience epochs 0 ⟨m0, none, 0⟩

/-- Source `ANFISModel.train` — with the restore step as it actually behaves.
The snapshot is taken as `self.membership_params.copy()` (a shallow dict copy
whose numpy arrays are the very arrays that later `backward_pass` calls mutate
in place with `centers[j] -= ...` and `widths[j] = ...`), so by restore time
the snapshot's membership arrays hold the final epoch's values and the
assignment `self.membership_params = best_weights['membership_params']` does
not change the observable membership parameters.  `rule_consequents.copy()`
is a genuine numpy array copy, so the consequents really are restored. -/
def train (m0 : Model) (perms : ℕ → ℕ → ℕ) (n : ℕ) (X : ℕ → ℕ → ℝ) (y : ℕ → ℝ)
    (nVal : ℕ) (Xval : ℕ → ℕ → ℝ) (yval : ℕ → ℝ)
    (epochs : ℕ) (lr : ℝ) (patience : ℕ) (bs : ℕ) : Model :=
  let s := trainLoop m0 perms n X y nVal Xval yval epochs lr patience bs
  match s.best with
  | none => s.model
  | some snap => { s.model with consequents := snap.consequents }

/-- Modelled from the spec (§4.2 early stopping and claim C2): the restore
step as the spec describes it, writing back the snapshotted membership
parameters and consequents — i.e. deep-copy semantics for the whole snapshot. -/
def trainClaimRestore (m0 : Model) (perms : ℕ → ℕ → ℕ) (n : ℕ) (X : ℕ → ℕ → ℝ)
    (y : ℕ → ℝ) (nVal : ℕ) (Xval : ℕ → ℕ → ℝ) (yval : ℕ → ℝ)
    (epochs : ℕ) (lr : ℝ) (patience : ℕ) (bs : ℕ) : Model :=
  let s := trainLoop m0 perms n X y nVal Xval yval epochs lr patience bs
  match s.best with
  | none => s.model
  | some snap =>
      { s.model with centers := snap.centers, widths := snap.widths,
                     consequents := snap.consequents }

/-- The record pickled by `save_model`: exactly the six data fields plus the
training history. -/
structure ModelData where
  membership_centers : ℕ → ℕ → ℝ
  membership_widths : ℕ → ℕ → ℝ
  rule_consequents : ℕ → ℕ → ℝ
  n_inputs : ℕ
  n_rules : ℕ
  n_membership_functions : ℕ
  training_history : History

/-- Source `save_model`: collect all model fields into the pickled record. -/
def save_model (m : Model) : ModelData :=
  { membership_centers := m.centers
    membership_widths := m.widths
    rule_consequents := m.consequents
    n_inputs := m.n_inputs
    n_rules := m.n_rules
    n_membership_functions := m.n_mfs
    training_history := m.history }

/-- Source `load_model`: overwrite every field of the receiving model `m0`
with the values stored in the record. -/
def load_model (d : ModelData) (m0 : Model) : Model :=
  { m0 with
    n_inputs := d.n_inputs
    n_rules := d.n_rules
    n_mfs := d.n_membership_functions
    centers := d.membership_centers
    widths := d.membership_widths
    consequents := d.rule_consequents
    history := d.training_history }

/-! ### One-vs-all ensemble inference

`BellPepperDatasetTrainer.predict_multi_class` gathers `predict_proba` from
every model into a row and divides by the row sum — with no guard on a zero
sum.  `predict_with_anfis` in `backend/app/main.py` performs the same
gathering but guards `total_prob > 0` and falls back to the uniform
distribution. -/

/-- The normalization step of `predict_multi_class`
(`probabilities / row_sums[:, np.newaxis]`), for one sample's gathered row.
There is no zero-sum guard in the source; on a zero-sum row numpy divides by
zero (producing a NaN row — here the Lean convention `x / 0 = 0` stands in
for that junk value, and either way the result is not a probability vector). -/
def normalizeRow (ps : List ℝ) : List ℝ := ps.map (fun p => p / ps.sum)

/-- Source `predict_multi_class`, per-sample probability row: gather
`predict_proba` from every model, then divide by the row sum. -/
def predict_multi_class_probs (models : List Model) (xv : ℕ → ℝ) : List ℝ :=
  normalizeRow (models.map (fun m => predict_proba m xv))

/-- The normalization in `predict_with_anfis` (`backend/app/main.py`): divide
by the total when it is positive, otherwise assign each class the uniform
probability `1 / n_classes`. -/
def mainNormalize (ps : List ℝ) : List ℝ :=
  if 0 < ps.sum then ps.map (fun p => p / ps.sum)
  else ps.map (fun _ => 1 / (ps.length : ℝ))

/-! ### Active learning (`active_learning.py`)

Defect-type labels are embedded as `ℕ` tokens and one synthetic sample as a
pair `(feature token, label)`.  The external generator + feature extractor
pair (`generate_single_image` followed by `extract_all_features`) is one
function `gen : ℕ → Option ℕ`, with `none` standing for a raised exception. -/

/-- Insertion-order deduplication: the iteration order of the Python dict
`defect_counts` built from the requested defect types. -/
def dedupFirst (l : List ℕ) : List ℕ :=
  l.foldl (fun acc t => if t ∈ acc then acc else acc ++ [t]) []

/-- Source `samples_needed = max(1, int(n_samples * count / len(types)))`. -/
def samplesNeeded (n count total : ℕ) : ℕ := max 1 (n * count / total)

/-- The inner generation loop for one defect type: `k` calls of the external
generator; a raised exception (`none`) propagates — there is no try/except in
the source. -/
def genForType (gen : ℕ → Option ℕ) (t : ℕ) : ℕ → Option (List (ℕ × ℕ))
  | 0 => some []
  | k + 1 =>
      match gen t with
      | none => none
      | some f =>
          match genForType gen t k with
          | none => none
          | some rest => some ((f, t) :: rest)

/-- One step of the outer loop of `generate_targeted_synthetic_samples`:
generate the share of samples for defect type `t` and append it; a pending
exception (`none` accumulator) or a failing generator call yields `none`. -/
def gtssStep (gen : ℕ → Option ℕ) (types : List ℕ) (n : ℕ)
    (acc : Option (List (ℕ × ℕ))) (t : ℕ) : Option (List (ℕ × ℕ)) :=
  match acc with
  | none => none
  | some l =>
      match genForType gen t (samplesNeeded n (types.count t) types.length) with
      | none => none
      | some s => some (l ++ s)

/-- Source `generate_targeted_synthetic_samples`: for each distinct requested
defect type (in first-occurrence order) generate its share of samples.  A
failure of any single generator call aborts the whole call — the samples
already generated for other classes are lost. -/
def generate_targeted_synthetic_samples (gen : ℕ → Option ℕ) (types : List ℕ)
    (n : ℕ) : Option (List (ℕ × ℕ)) :=
  (dedupFirst types).foldl (gtssStep gen types n) (some [])

/-- Modelled from the spec (§4.4/§7 failure semantics and claim C4): the
recovering behaviour the claim asserts — a failing class contributes nothing
while the samples of every succeeding class are kept. -/
def generateTargetedRecovering (gen : ℕ → Option ℕ) (types : List ℕ)
    (n : ℕ) : List (ℕ × ℕ) :=
  (dedupFirst types).foldl
    (fun acc t =>
      match genForType gen t (samplesNeeded n (types.count t) types.length) with
      | none => acc
      | some s => acc ++ s)
    []

/-- Source confidence rescaling in `identify_uncertain_samples`:
`np.abs(predictions - 0.5) * 2`. -/
def confidence (p : ℝ) : ℝ := |p - 1/2| * 2

/-- Source `identify_uncertain_samples`: indices of the validation samples
whose confidence is strictly below the threshold. -/
def identify_uncertain_samples (m : Model) (nVal : ℕ) (Xval : ℕ → ℕ → ℝ)
    (threshold : ℝ) : List ℕ :=
  (List.range nVal).filter
    (fun k => decide (confidence (predict_proba m (Xval k)) < threshold))

/-- True positives of the thresholded binary predictions on the validation
set (positive label `1`). -/
def truePos (m : Model) (nVal : ℕ) (Xval : ℕ → ℕ → ℝ) (yval : ℕ → ℝ) : ℕ :=
  ((List.range nVal).filter
    (fun k => decide (predictBin m (Xval k) = 1 ∧ yval k = 1))).length

/-- False positives (predicted `1`, label `0`). -/
def falsePos (m : Model) (nVal : ℕ) (Xval : ℕ → ℕ → ℝ) (yval : ℕ → ℝ) : ℕ :=
  ((List.range nVal).filter
    (fun k => decide (predictBin m (Xval k) = 1 ∧ yval k = 0))).length

/-- False negatives (predicted `0`, label `1`). -/
def falseNeg (m : Model) (nVal : ℕ) (Xval : ℕ → ℕ → ℝ) (yval : ℕ → ℝ) : ℕ :=
  ((List.range nVal).filter
    (fun k => decide (predictBin m (Xval k) = 0 ∧ yval k = 1))).length

/-- The binary F1 score reported by `evaluate` (sklearn's `f1_score`,
which returns `0.0` when there are no true positives — matched here by the
`0 / 0 = 0` convention of real division). -/
def evalF1 (m : Model) (nVal : ℕ) (Xval : ℕ → ℕ → ℝ) (yval : ℕ → ℝ) : ℝ :=
  2 * (truePos m nVal Xval yval : ℝ) /
    (2 * (truePos m nVal Xval yval : ℝ) + (falsePos m nVal Xval yval : ℝ) +
      (falseNeg m nVal Xval yval : ℝ))

/-- Loop state of `active_learning_loop`: the training pool (feature tokens
and labels), the best model and its F1 (`best_model = None`,
`best_performance = 0.0` initially), and the number of iterations executed. -/
structure ALState where
  feats : List ℕ
  labels : List ℕ
  best : Option Model
  bestPerf : ℝ
  iters : ℕ

/-- Source `active_learning_loop`, one embedding per remaining-iteration
count.  `trainFn` abstracts `prepare_dataset` + `train_model` on the current
pool (randomized initialization and shuffling make it a run-specific
function); `analyzeGen` abstracts `analyze_uncertain_samples` followed by a
*succeeding* `generate_targeted_synthetic_samples` call.  Each iteration
trains, evaluates F1, updates the best model on strict improvement, and
breaks when no uncertain validation samples remain; otherwise the generated
samples are appended to the pool (`update_training_data`). -/
def alLoop (trainFn : List ℕ → List ℕ → Model)
    (analyzeGen : Model → List ℕ → List (ℕ × ℕ))
    (nVal : ℕ) (Xval : ℕ → ℕ → ℝ) (yval : ℕ → ℝ) (threshold : ℝ) :
    ℕ → ALState → ALState
  | 0, s => s
  | fuel + 1, s =>
      let m := trainFn s.feats s.labels
      let f1 := evalF1 m nVal Xval yval
      let s1 : ALState :=
        if s.bestPerf < f1 then
          { s with best := some m, bestPerf := f1, iters := s.iters + 1 }
        else { s with iters := s.iters + 1 }
      if identify_uncertain_samples m nVal Xval threshold = [] then s1
      else
        alLoop trainFn analyzeGen nVal Xval yval threshold fuel
          { s1 with
            feats := s1.feats ++ (analyzeGen m (identify_uncertain_samples m nVal Xval threshold)).map Prod.fst
            labels := s1.labels ++ (analyzeGen m (identify_uncertain_samples m nVal Xval threshold)).map Prod.snd }

/-- Source `active_learning_loop` from its initial state. -/
def active_learning_loop (trainFn : List ℕ → List ℕ → Model)
    (analyzeGen : Model → List ℕ → List (ℕ × ℕ))
    (nVal : ℕ) (Xval : ℕ → ℕ → ℝ) (yval : ℕ → ℝ) (threshold : ℝ)
    (maxIterations : ℕ) (feats0 labels0 : List ℕ) : ALState :=
  alLoop trainFn analyzeGen nVal Xval yval threshold maxIterations
    ⟨feats0, labels0, none, 0, 0⟩

/-- The train/evaluate/track-best part of one `active_learning_loop`
iteration (the state the loop returns when it breaks on an empty uncertain
set): train on the current pool, and take the model as new best exactly when
its F1 strictly exceeds the best performance so far. -/
def alBreak (trainFn : List ℕ → List ℕ → Model) (nVal : ℕ) (Xval : ℕ → ℕ → ℝ)
    (yval : ℕ → ℝ) (s : ALState) : ALState :=
  if s.bestPerf < evalF1 (trainFn s.feats s.labels) nVal Xval yval then
    { s with best := some (trainFn s.feats s.labels)
             bestPerf := evalF1 (trainFn s.feats s.labels) nVal Xval yval
             iters := s.iters + 1 }
  else { s with iters := s.iters + 1 }

/-- One full (non-breaking) `active_learning_loop` iteration:
`alBreak` followed by appending the generated samples for the uncertain set
(`update_training_data`). -/
def alStep1 (trainFn : List ℕ → List ℕ → Model)
    (analyzeGen : Model → List ℕ → List (ℕ × ℕ)) (nVal : ℕ) (Xval : ℕ → ℕ → ℝ)
    (yval : ℕ → ℝ) (threshold : ℝ) (s : ALState) : ALState :=
  { alBreak trainFn nVal Xval yval s with
    feats := (alBreak trainFn nVal Xval yval s).feats ++
      (analyzeGen (trainFn s.feats s.labels)
        (identify_uncertain_samples (trainFn s.feats s.labels) nVal Xval threshold)).map
        Prod.fst
    labels := (alBreak trainFn nVal Xval yval s).labels ++
      (analyzeGen (trainFn s.feats s.labels)
        (identify_uncertain_samples (trainFn s.feats s.labels) nVal Xval threshold)).map
        Prod.snd }

/-- The trajectory of loop states reached by running full iterations from
`s` without ever breaking; state `i` is the state at the start of iteration
`i + 1`. -/
def alTraj (trainFn : List ℕ → List ℕ → Model)
    (analyzeGen : Model → List ℕ → List (ℕ × ℕ)) (nVal : ℕ) (Xval : ℕ → ℕ → ℝ)
    (yval : ℕ → ℝ) (threshold : ℝ) (s : ALState) : ℕ → ALState
  | 0 => s
  | i + 1 => alStep1 trainFn analyzeGen nVal Xval yval threshold
      (alTraj trainFn analyzeGen nVal Xval yval threshold s i)

/-- The loop's break condition at state `s`: the model trained on `s`'s pool
leaves no uncertain validation sample (every confidence is at or above the
threshold). -/
def uncertainFree (trainFn : List ℕ → List ℕ → Model) (nVal : ℕ)
    (Xval : ℕ → ℕ → ℝ) (threshold : ℝ) (s : ALState) : Prop :=
  identify_uncertain_samples (trainFn s.feats s.labels) nVal Xval threshold = []

/-! ### Claim-side definitions and concrete fixtures -/

/-- Follows the words of claim C3: the consequent entry moves by minus the
learning rate times the batch mean of `(pred - target) * rule_strength *
[x, 1]` — with no second division by the batch size. -/
def consequentClaimUpdate (m : Model) (n : ℕ) (X : ℕ → ℕ → ℝ) (y : ℕ → ℝ)
    (lr : ℝ) (i d : ℕ) : ℝ :=
  m.consequents i d - lr * batchMean n (fun k =>
    (clippedPred m X k - y k) * generate_rules m (X k) i *
      (if d < m.n_inputs then X k d else 1))

/-- Model fixture with constant centers `c`, constant widths `w` and the given
consequents. -/
def flatModel (nIn nR nMf : ℕ) (c w : ℝ) (cons : ℕ → ℕ → ℝ) : Model :=
  { n_inputs := nIn
    n_rules := nR
    n_mfs := nMf
    centers := fun _ _ => c
    widths := fun _ _ => w
    consequents := cons
    history := History.empty }

/-- Fixture for claim C3: two inputs, one rule, one membership function,
centers `0`, widths `1`, all consequents `0`. -/
def mC3 : Model := flatModel 2 1 1 0 1 (fun _ _ => 0)

/-- Fixture for claim C5: like `mC3` but with two rules — more rules than
grid cells, so rule `1` keeps its `np.ones` initialization. -/
def mC5 : Model := flatModel 2 2 1 0 1 (fun _ _ => 0)

/-- Fixture for claim C2: one input, zero rules (so the forward output is
constantly `sigmoid 0 = 1/2` and validation losses tie across epochs), one
membership function, center `0`, width `1`. -/
def mC2 : Model := flatModel 1 0 1 0 1 (fun _ _ => 0)

/-- Fixture for claim C9: one input, one rule, zero linear weight and bias
`b`, so on the all-zero sample the prediction is `sigmoid b`. -/
def biasModel (b : ℝ) : Model := flatModel 1 1 1 0 1 (fun _ d => if d = 1 then b else 0)

/-- Failing generator fixture for claim C4: label `1` succeeds with feature
token `7`, every other label raises. -/
def genFail1 : ℕ → Option ℕ := fun t => if t = 1 then some 7 else none

/-- Claim C2 fixture: constant all-ones training and validation input. -/
def XC2 : ℕ → ℕ → ℝ := fun _ _ => 1

/-- Claim C2 fixture: all-zero targets. -/
def yC2 : ℕ → ℝ := fun _ => 0

/-- Claim C2 fixture: with a single training sample every epoch's shuffle is
the identity permutation. -/
def permsC2 : ℕ → ℕ → ℕ := fun _ k => k

/-- Epoch 1 of the claim C2 training run (model and validation loss). -/
def epoch1C2 : Model × ℝ := epochStep (permsC2 0) 1 XC2 yC2 1 XC2 yC2 1 32 mC2

/-- Loop state after epoch 1 of the claim C2 run: the snapshot is taken here
(first epoch always improves on `best_val_loss = inf`). -/
def state1C2 : TrainState := updateBest epoch1C2.1 epoch1C2.2 ⟨mC2, none, 0⟩

/-- Epoch 2 of the claim C2 training run. -/
def epoch2C2 : Model × ℝ :=
  epochStep (permsC2 (0+1)) 1 XC2 yC2 1 XC2 yC2 1 32 state1C2.model

/-- Loop state after epoch 2 of the claim C2 run. -/
def state2C2 : TrainState := updateBest epoch2C2.1 epoch2C2.2 state1C2

/-! ## Helper lemmas -/

theorem sigmoid_pos (z : ℝ) : 0 < sigmoid z := by
  unfold sigmoid
  positivity

theorem sigmoid_lt_one (z : ℝ) : sigmoid z < 1 := by
  unfold sigmoid
  rw [div_lt_one (by positivity)]
  linarith [Real.exp_pos (-z)]

theorem sigmoid_zero : sigmoid 0 = 1/2 := by
  unfold sigmoid
  rw [neg_zero, Real.exp_zero]
  norm_num

theorem sigmoid_gt_half {z : ℝ} (hz : 0 < z) : 1/2 < sigmoid z := by
  unfold sigmoid
  rw [lt_div_iff₀ (by positivity)]
  have h : Real.exp (-z) < 1 := Real.exp_lt_one_iff.mpr (by linarith)
  linarith

theorem sigmoid_lt_half {z : ℝ} (hz : z < 0) : sigmoid z < 1/2 := by
  unfold sigmoid
  rw [div_lt_iff₀ (by positivity)]
  have h : 1 < Real.exp (-z) := Real.one_lt_exp_iff.mpr (by linarith)
  linarith

theorem gaussian_membership_pos (x c w : ℝ) : 0 < gaussian_membership x c w :=
  Real.exp_pos _

theorem strengthLoop_pos (m : Model) (xv : ℕ → ℝ) (r : ℕ) :
    0 < strengthLoop m xv r := by
  unfold strengthLoop
  generalize List.range m.n_inputs = l
  have key : ∀ (l : List ℕ) (a : ℝ), 0 < a →
      0 < l.foldl (fun acc k =>
        if k = 0 then membershipDegree m xv 0 (r / m.n_mfs)
        else if k = 1 then acc * membershipDegree m xv 1 (r % m.n_mfs)
        else acc * membershipDegree m xv k 0) a := by
    intro l
    induction l with
    | nil => intro a ha; simpa using ha
    | cons k t ih =>
        intro a ha
        simp only [List.foldl_cons]
        apply ih
        by_cases hk0 : k = 0
        · simpa [hk0] using gaussian_membership_pos _ _ _
        · by_cases hk1 : k = 1
          · simpa [hk0, hk1] using mul_pos ha (gaussian_membership_pos _ _ _)
          · simpa [hk0, hk1] using mul_pos ha (gaussian_membership_pos _ _ _)
  exact key l 1 one_pos

theorem generate_rules_pos (m : Model) (xv : ℕ → ℝ) (r : ℕ) :
    0 < generate_rules m xv r := by
  unfold generate_rules
  split
  · exact strengthLoop_pos m xv r
  · exact one_pos

theorem strengthSum_nonneg (m : Model) (xv : ℕ → ℝ) : 0 ≤ strengthSum m xv :=
  Finset.sum_nonneg fun r _ => (generate_rules_pos m xv r).le

theorem strengthDenom_pos (m : Model) (xv : ℕ → ℝ) : 0 < strengthDenom m xv := by
  unfold strengthDenom
  split
  · norm_num
  · exact lt_of_le_of_ne (strengthSum_nonneg m xv) (Ne.symm (by assumption))

theorem forward_pass_pos (m : Model) (xv : ℕ → ℝ) : 0 < forward_pass m xv :=
  sigmoid_pos _

theorem forward_pass_lt_one (m : Model) (xv : ℕ → ℝ) : forward_pass m xv < 1 :=
  sigmoid_lt_one _

/-! ## Claim C7 -/

/-- Claim C7: for every input, the forward inference never divides by zero —
the denominator actually used is strictly positive (the rule-strength sum is
replaced by the epsilon `1e-10` when it is zero) — and the final sigmoid
output always lies in `[0, 1]`. -/
theorem C7_forward_no_div_zero_output_bounded (m : Model) (xv : ℕ → ℝ) :
    0 < strengthDenom m xv ∧ 0 ≤ forward_pass m xv ∧ forward_pass m xv ≤ 1 :=
  ⟨strengthDenom_pos m xv, (forward_pass_pos m xv).le, (forward_pass_lt_one m xv).le⟩

/-! ## Claim C8 -/

/-- Claim C8: saving a model and loading the record back (into any receiving
model `m0`) yields exactly the original predictions on every input — the
pickled record round-trips every field `predict_proba` depends on. -/
theorem C8_save_load_roundtrip (m m0 : Model) (xv : ℕ → ℝ) :
    predict_proba (load_model (save_model m) m0) xv = predict_proba m xv := rfl

/-! ## Claims C5 and C6: rule enumeration -/

theorem foldl_grid (d : ℕ → ℕ → ℝ) (a b : ℕ) :
    ∀ n, 2 ≤ n →
      (List.range n).foldl
        (fun acc k => if k = 0 then d 0 a else if k = 1 then acc * d 1 b else acc * d k 0) 1
      = d 0 a * d 1 b * ∏ k ∈ Finset.Ico 2 n, d k 0 := by
  intro n
  induction n with
  | zero => intro h; omega
  | succ n ih =>
      intro h
      rcases Nat.lt_or_ge n 2 with h2 | h2
      · have hn : n = 1 := by omega
        subst hn
        simp [show List.range 2 = [0, 1] from rfl]
      · rw [List.range_succ, List.foldl_append, ih h2, Finset.prod_Ico_succ_top h2]
        have hk0 : n ≠ 0 := by omega
        have hk1 : n ≠ 1 := by omega
        simp [hk0, hk1, mul_assoc]

theorem strengthLoop_closed (m : Model) (xv : ℕ → ℝ) (r : ℕ) (h2 : 2 ≤ m.n_inputs) :
    strengthLoop m xv r =
      membershipDegree m xv 0 (r / m.n_mfs) * membershipDegree m xv 1 (r % m.n_mfs) *
        ∏ k ∈ Finset.Ico 2 m.n_inputs, membershipDegree m xv k 0 := by
  unfold strengthLoop
  exact foldl_grid (fun k j => membershipDegree m xv k j) (r / m.n_mfs) (r % m.n_mfs)
    m.n_inputs h2

/-- Claim C5 (amended): for at least two inputs, every rule index `r` that is
both within `n_rules` and within the `n_mfs * n_mfs` grid gets the strength of
grid cell `(r / n_mfs, r % n_mfs)` — the degree of input `0` at membership
function `r / n_mfs` times the degree of input `1` at `r % n_mfs` — and every
input dimension beyond the second contributes its membership function `0` as a
further factor.  (Rules beyond the grid, which exist when
`n_rules > n_mfs * n_mfs`, keep the constant strength `1` instead, as the
counterexample shows.) -/
theorem C5_grid_rule_strengths (m : Model) (xv : ℕ → ℝ) (r : ℕ)
    (h2 : 2 ≤ m.n_inputs) (hr : r < m.n_rules) (hg : r < m.n_mfs * m.n_mfs) :
    generate_rules m xv r =
      membershipDegree m xv 0 (r / m.n_mfs) * membershipDegree m xv 1 (r % m.n_mfs) *
        ∏ k ∈ Finset.Ico 2 m.n_inputs, membershipDegree m xv k 0 := by
  unfold generate_rules
  rw [if_pos ⟨hr, hg⟩]
  exact strengthLoop_closed m xv r h2

/-- Claim C5 counterexample: in the configuration `n_inputs = 2`,
`n_rules = 2`, `n_membership_functions = 1` (grid of one cell), rule `1` has
constant strength `1` on the all-ones sample, although the only grid-cell
product of membership degrees — the strength the claim assigns to every rule —
is `exp(-1/2) * exp(-1/2) ≠ 1`. -/
theorem C5_counterexample :
    generate_rules mC5 (fun _ => 1) 1 = 1 ∧
    generate_rules mC5 (fun _ => 1) 1 ≠
      membershipDegree mC5 (fun _ => 1) 0 0 * membershipDegree mC5 (fun _ => 1) 1 0 := by
  have hval : generate_rules mC5 (fun _ => 1) 1 = 1 := by
    unfold generate_rules
    rw [if_neg]
    intro hcon
    have := hcon.2
    simp [mC5, flatModel] at this
  refine ⟨hval, ?_⟩
  have hd : ∀ i, membershipDegree mC5 (fun _ => 1) i 0 = Real.exp (-(1/2)) := by
    intro i
    show gaussian_membership 1 (mC5.centers i 0) (mC5.widths i 0) = Real.exp (-(1/2))
    simp only [mC5, flatModel]
    unfold gaussian_membership
    norm_num
  rw [hval, hd 0, hd 1, ← Real.exp_add]
  have hlt : Real.exp (-(1/2) + -(1/2)) < 1 := Real.exp_lt_one_iff.mpr (by norm_num)
  intro heq
  rw [← heq] at hlt
  exact lt_irrefl 1 hlt

/-- Claim C5 witness: the amended statement instantiated at the fixture
`mC3` (two inputs, one rule, one membership function) with rule `0`. -/
theorem C5_witness :
    (2 ≤ mC3.n_inputs ∧ 0 < mC3.n_rules ∧ 0 < mC3.n_mfs * mC3.n_mfs) ∧
    generate_rules mC3 (fun _ => 1) 0 =
      membershipDegree mC3 (fun _ => 1) 0 (0 / mC3.n_mfs) *
        membershipDegree mC3 (fun _ => 1) 1 (0 % mC3.n_mfs) *
        ∏ k ∈ Finset.Ico 2 mC3.n_inputs, membershipDegree mC3 (fun _ => 1) k 0 :=
  ⟨⟨by decide, by decide, by decide⟩,
   C5_grid_rule_strengths mC3 (fun _ => 1) 0 (by decide) (by decide) (by decide)⟩

/-- Claim C6: whenever `n_rules ≤ n_membership_functions` and there are at
least two inputs, the grid enumeration is truncated inside the first grid row,
so every rule `r < n_rules` uses membership function `0` of input dimension
`0`, and the strengths differ across rules only through which membership
function (`r`) of input dimension `1` is used — all remaining factors are the
same for every rule. -/
theorem C6_truncated_first_row (m : Model) (xv : ℕ → ℝ) (r : ℕ)
    (h2 : 2 ≤ m.n_inputs) (hnm : m.n_rules ≤ m.n_mfs) (hr : r < m.n_rules) :
    generate_rules m xv r =
      membershipDegree m xv 0 0 * membershipDegree m xv 1 r *
        ∏ k ∈ Finset.Ico 2 m.n_inputs, membershipDegree m xv k 0 := by
  have hrm : r < m.n_mfs := lt_of_lt_of_le hr hnm
  have hpos : 0 < m.n_mfs := by omega
  have hg : r < m.n_mfs * m.n_mfs :=
    lt_of_lt_of_le hrm (Nat.le_mul_of_pos_left _ hpos)
  unfold generate_rules
  rw [if_pos ⟨hr, hg⟩, strengthLoop_closed m xv r h2, Nat.div_eq_of_lt hrm,
    Nat.mod_eq_of_lt hrm]

/-- Claim C6 witness: the statement instantiated at the fixture `mC3`
(`n_rules = 1 ≤ n_mfs = 1`) with rule `0`. -/
theorem C6_witness :
    (2 ≤ mC3.n_inputs ∧ mC3.n_rules ≤ mC3.n_mfs ∧ 0 < mC3.n_rules) ∧
    generate_rules mC3 (fun _ => 1) 0 =
      membershipDegree mC3 (fun _ => 1) 0 0 * membershipDegree mC3 (fun _ => 1) 1 0 *
        ∏ k ∈ Finset.Ico 2 mC3.n_inputs, membershipDegree mC3 (fun _ => 1) k 0 :=
  ⟨⟨by decide, by decide, by decide⟩,
   C6_truncated_first_row mC3 (fun _ => 1) 0 (by decide) (by decide) (by decide)⟩

/-! ## Claim C1: multi-class probability normalization -/

theorem sum_map_div (l : List ℝ) (c : ℝ) :
    (l.map (fun p => p / c)).sum = l.sum / c := by
  induction l with
  | nil => simp
  | cons a t ih => simp [ih, add_div]

theorem sum_map_const (l : List ℝ) (c : ℝ) :
    (l.map (fun _ => c)).sum = l.length * c := by
  induction l with
  | nil => simp
  | cons a t ih => simp [ih]; ring

theorem list_sum_pos_of_pos {l : List ℝ} (hne : l ≠ []) (hpos : ∀ x ∈ l, 0 < x) :
    0 < l.sum := by
  cases l with
  | nil => exact absurd rfl hne
  | cons a t =>
      simp only [List.sum_cons]
      have ha : 0 < a := hpos a (by simp)
      have ht : 0 ≤ t.sum := List.sum_nonneg fun x hx => (hpos x (by simp [hx])).le
      linarith

/-- Claim C1 counterexample: on a gathered row of all-zero one-vs-all scores
(reachable in the deployed float code, where a strongly negative
pre-activation underflows the sigmoid to exactly `0.0`), the normalization of
`predict_multi_class` neither sums to `1` nor equals the uniform distribution
`[1/2, 1/2]` the claim prescribes for `N = 2` — the function has no zero-sum
fallback and just divides by the zero sum. -/
theorem C1_counterexample :
    (normalizeRow [(0:ℝ), 0]).sum ≠ 1 ∧ normalizeRow [(0:ℝ), 0] ≠ [1/2, 1/2] := by
  have h : normalizeRow [(0:ℝ), 0] = [0, 0] := by simp [normalizeRow]
  constructor
  · rw [h]; norm_num
  · rw [h]; intro heq; injection heq with h1 _; norm_num at h1

/-- Claim C1 (amended): for every nonempty model list the gathered
`predict_proba` row has strictly positive sum — in exact arithmetic the
sigmoid output is strictly positive, so the zero-sum case never arises there —
and dividing by that sum makes the returned per-sample probability vector sum
to `1`.  `predict_multi_class` itself contains no zero-sum fallback (that
fallback lives in `predict_with_anfis` in `main.py`, cf.
`mainNormalize_sum_one`). -/
theorem C1_normalized_row_sums_to_one (models : List Model) (xv : ℕ → ℝ)
    (h : models ≠ []) :
    0 < (models.map fun m => predict_proba m xv).sum ∧
    (predict_multi_class_probs models xv).sum = 1 := by
  have hpos : 0 < (models.map fun m => predict_proba m xv).sum := by
    apply list_sum_pos_of_pos
    · simpa using h
    · intro x hx
      simp only [List.mem_map] at hx
      obtain ⟨m, _, rfl⟩ := hx
      exact forward_pass_pos m xv
  refine ⟨hpos, ?_⟩
  unfold predict_multi_class_probs normalizeRow
  rw [sum_map_div]
  exact div_self (ne_of_gt hpos)

/-- Claim C1 witness: the amended statement at the one-model ensemble
`[mC3]` on the all-zero sample. -/
theorem C1_witness :
    ([mC3] : List Model) ≠ [] ∧
    (0 < ([mC3].map fun m => predict_proba m (fun _ => 0)).sum ∧
      (predict_multi_class_probs [mC3] (fun _ => 0)).sum = 1) :=
  ⟨by simp, C1_normalized_row_sums_to_one [mC3] (fun _ => 0) (by simp)⟩

/-- Supporting fact for the C1 amendment: the serving-layer normalization in
`predict_with_anfis` (`main.py`) does sum to `1` for every nonempty row,
including the all-zero row, thanks to its uniform fallback. -/
theorem mainNormalize_sum_one (ps : List ℝ) (h : ps ≠ []) :
    (mainNormalize ps).sum = 1 := by
  unfold mainNormalize
  split
  · rw [sum_map_div]
    exact div_self (ne_of_gt (by assumption))
  · rw [sum_map_const]
    have hl : (ps.length : ℝ) ≠ 0 := by
      simpa using fun hcon => h (List.length_eq_zero.mp hcon)
    field_simp

/-! ## Claim C10: membership widths stay above the floor -/

/-- Claim C10: widths are initialized at `0.2`, strictly above the floor
`0.01`, and after any single `backward_pass` update every in-range width is at
least the floor `0.01` (the `max(widths[j], 0.01)` clamp), so an attempted
zero or negative width is clamped rather than corrupting the membership
degrees. -/
theorem C10_width_floor :
    (∀ (nIn nR nMf : ℕ) (rand : ℕ → ℕ → ℝ) (i j : ℕ),
      (initModel nIn nR nMf rand).widths i j = 0.2) ∧
    ((0.01 : ℝ) < 0.2) ∧
    ∀ (m : Model) (n : ℕ) (X : ℕ → ℕ → ℝ) (y : ℕ → ℝ) (lr : ℝ) (i j : ℕ),
      i < m.n_inputs → j < m.n_mfs →
      0.01 ≤ (backward_pass m n X y lr).widths i j := by
  refine ⟨fun _ _ _ _ _ _ => rfl, by norm_num, ?_⟩
  intro m n X y lr i j hi hj
  show (0.01 : ℝ) ≤
    (if i < m.n_inputs ∧ j < m.n_mfs then newWidth m n X y lr i j else m.widths i j)
  rw [if_pos ⟨hi, hj⟩]
  exact le_max_right _ _

/-- Claim C10 witness: instantiated at the fixture `mC2` with one sample. -/
theorem C10_witness :
    (initModel 1 0 1 (fun _ _ => 0)).widths 0 0 = 0.2 ∧
    ((0:ℕ) < mC2.n_inputs ∧ (0:ℕ) < mC2.n_mfs) ∧
    0.01 ≤ (backward_pass mC2 1 (fun _ _ => 1) (fun _ => 0) 1).widths 0 0 :=
  ⟨C10_width_floor.1 1 0 1 (fun _ _ => 0) 0 0, ⟨by decide, by decide⟩,
   C10_width_floor.2.2 mC2 1 (fun _ _ => 1) (fun _ => 0) 1 0 0 (by decide) (by decide)⟩

/-! ## Claim C3: the consequent update formula -/

theorem clipPred_half : clipPred (1/2) = 1/2 := by
  unfold clipPred
  rw [max_eq_left (by norm_num), min_eq_left (by norm_num)]

theorem deg_mC3_zero (i : ℕ) : membershipDegree mC3 (fun _ => 0) i 0 = 1 := by
  show gaussian_membership 0 (mC3.centers i 0) (mC3.widths i 0) = 1
  simp only [mC3, flatModel]
  unfold gaussian_membership
  norm_num

theorem rules_mC3_zero : generate_rules mC3 (fun _ => 0) 0 = 1 := by
  unfold generate_rules
  rw [if_pos ⟨by decide, by decide⟩,
    strengthLoop_closed mC3 (fun _ => 0) 0 (by decide)]
  rw [show (0 / mC3.n_mfs) = 0 from rfl, show (0 % mC3.n_mfs) = 0 from rfl,
    deg_mC3_zero 0, deg_mC3_zero 1,
    show Finset.Ico 2 mC3.n_inputs = Finset.Ico 2 2 from rfl, Finset.Ico_self]
  simp

theorem forward_mC3 : forward_pass mC3 (fun _ => 0) = 1/2 := by
  have hro : rule_output mC3 (fun _ => 0) 0 = 0 := by
    unfold rule_output
    simp [mC3, flatModel]
  have hw : weightedSum mC3 (fun _ => 0) = 0 := by
    unfold weightedSum
    rw [show mC3.n_rules = 1 from rfl, Finset.sum_range_one, hro, mul_zero]
  have hss : strengthSum mC3 (fun _ => 0) = 1 := by
    unfold strengthSum
    rw [show mC3.n_rules = 1 from rfl, Finset.sum_range_one, rules_mC3_zero]
  unfold forward_pass strengthDenom
  rw [hss, hw, if_neg (by norm_num)]
  rw [show (0:ℝ) / 1 = 0 by norm_num, sigmoid_zero]

theorem clippedPred_mC3 (k : ℕ) : clippedPred mC3 (fun _ _ => 0) k = 1/2 := by
  show clipPred (forward_pass mC3 (fun _ => 0)) = 1/2
  rw [forward_mC3, clipPred_half]

/-- Claim C3 counterexample: on the two-sample all-zero batch with targets
`0` and learning rate `1`, the bias of rule `0` moves to `-1/4` (the code
divides `(pred - target)` by the batch size inside `grad_output` and then
takes `np.mean`, dividing by the batch size again), while the claim's formula
`old - lr * mean((pred - target) * strength * 1)` yields `-1/2`. -/
theorem C3_counterexample :
    (backward_pass mC3 2 (fun _ _ => 0) (fun _ => 0) 1).consequents 0 2 ≠
    consequentClaimUpdate mC3 2 (fun _ _ => 0) (fun _ => 0) 1 0 2 := by
  show (if 0 < mC3.n_rules ∧ 2 ≤ mC3.n_inputs then
        mC3.consequents 0 2 - 1 * batchMean 2 (fun k =>
          gradOutput mC3 2 (fun _ _ => 0) (fun _ => 0) k *
            generate_rules mC3 ((fun _ _ => (0:ℝ)) k) 0 *
            (if 2 < mC3.n_inputs then (fun _ _ => (0:ℝ)) k 2 else 1))
      else mC3.consequents 0 2) ≠ _
  rw [if_pos ⟨by decide, by decide⟩]
  unfold consequentClaimUpdate
  have hg : ∀ k : ℕ, gradOutput mC3 2 (fun _ _ => 0) (fun _ => 0) k = 1/4 := by
    intro k
    unfold gradOutput
    rw [clippedPred_mC3]
    norm_num
  have hlt : ¬ (2 < mC3.n_inputs) := by decide
  simp only [hg, clippedPred_mC3, rules_mC3_zero, batchMean, Finset.sum_range_succ,
    Finset.sum_range_zero, if_neg hlt]
  norm_num [rules_mC3_zero]

/-- Claim C3 (amended): one `backward_pass` moves consequent entry `d` of
rule `i` by minus the learning rate times `1/n` times the batch mean of
`(pred - target) * rule_strength_i * [x, 1]` (with `pred` the epsilon-clipped
prediction) — i.e. the claimed quantity carries an extra division by the
batch size `n`, because `grad_output` already divides by `n` before
`np.mean` divides by `n` again. -/
theorem C3_consequent_update (m : Model) (n : ℕ) (X : ℕ → ℕ → ℝ) (y : ℕ → ℝ)
    (lr : ℝ) (i d : ℕ) (hi : i < m.n_rules) (hd : d ≤ m.n_inputs) :
    (backward_pass m n X y lr).consequents i d =
      m.consequents i d - (lr / n) * batchMean n (fun k =>
        (clippedPred m X k - y k) * generate_rules m (X k) i *
          (if d < m.n_inputs then X k d else 1)) := by
  show (if i < m.n_rules ∧ d ≤ m.n_inputs then
        m.consequents i d - lr * batchMean n (fun k =>
          gradOutput m n X y k * generate_rules m (X k) i *
            (if d < m.n_inputs then X k d else 1))
      else m.consequents i d) = _
  rw [if_pos ⟨hi, hd⟩]
  unfold batchMean gradOutput
  rw [show (fun k => (clippedPred m X k - y k) / (n:ℝ) * generate_rules m (X k) i *
        (if d < m.n_inputs then X k d else 1)) =
      (fun k => ((clippedPred m X k - y k) * generate_rules m (X k) i *
        (if d < m.n_inputs then X k d else 1)) / (n:ℝ)) from
    funext fun k => by ring]
  rw [← Finset.sum_div]
  ring

/-- Claim C3 witness: the amended statement at the fixture `mC3`, one-sample
batch, rule `0`, weight entry `0`. -/
theorem C3_witness :
    ((0:ℕ) < mC3.n_rules ∧ (0:ℕ) ≤ mC3.n_inputs) ∧
    (backward_pass mC3 1 (fun _ _ => 0) (fun _ => 0) 1).consequents 0 0 =
      mC3.consequents 0 0 - ((1:ℝ) / ((1:ℕ):ℝ)) * batchMean 1 (fun k =>
        (clippedPred mC3 (fun _ _ => 0) k - (fun _ => (0:ℝ)) k) *
          generate_rules mC3 ((fun _ _ => (0:ℝ)) k) 0 *
          (if 0 < mC3.n_inputs then (fun _ _ => (0:ℝ)) k 0 else 1)) :=
  ⟨⟨by decide, by decide⟩,
   C3_consequent_update mC3 1 (fun _ _ => 0) (fun _ => 0) 1 0 0 (by decide) (by decide)⟩

/-! ## Claim C4: synthetic-generation failures -/

theorem mem_dedupFirst {t : ℕ} {l : List ℕ} (h : t ∈ l) : t ∈ dedupFirst l := by
  unfold dedupFirst
  have key : ∀ (l' : List ℕ) (acc : List ℕ), t ∈ acc ∨ t ∈ l' →
      t ∈ l'.foldl (fun acc t' => if t' ∈ acc then acc else acc ++ [t']) acc := by
    intro l'
    induction l' with
    | nil =>
        intro acc h'
        rcases h' with h' | h'
        · simpa using h'
        · simp at h'
    | cons a tl ih =>
        intro acc h'
        simp only [List.foldl_cons]
        apply ih
        by_cases ha : a ∈ acc
        · rw [if_pos ha]
          rcases h' with h' | h'
          · exact Or.inl h'
          · rcases List.mem_cons.mp h' with rfl | h'
            · exact Or.inl ha
            · exact Or.inr h'
        · rw [if_neg ha]
          rcases h' with h' | h'
          · exact Or.inl (by simp [h'])
          · rcases List.mem_cons.mp h' with rfl | h'
            · exact Or.inl (by simp)
            · exact Or.inr h'
  exact key l [] (Or.inr h)

theorem genForType_fail {gen : ℕ → Option ℕ} {t : ℕ} (h : gen t = none) (k : ℕ) :
    genForType gen t (k + 1) = none := by
  simp [genForType, h]

theorem samplesNeeded_pos (n count total : ℕ) : 0 < samplesNeeded n count total :=
  lt_of_lt_of_le one_pos (le_max_left _ _)

theorem gtssStep_fail (gen : ℕ → Option ℕ) (types : List ℕ) (n : ℕ) {t : ℕ}
    (h : gen t = none) (acc : Option (List (ℕ × ℕ))) :
    gtssStep gen types n acc t = none := by
  cases acc with
  | none => rfl
  | some l =>
      obtain ⟨j, hj⟩ :=
        Nat.exists_eq_succ_of_ne_zero (samplesNeeded_pos n (types.count t) types.length).ne'
      simp [gtssStep, hj, genForType_fail h]

theorem foldl_gtssStep_none (gen : ℕ → Option ℕ) (types : List ℕ) (n : ℕ) :
    ∀ l : List ℕ, l.foldl (gtssStep gen types n) none = none := by
  intro l
  induction l with
  | nil => rfl
  | cons a tl ih => simpa [List.foldl_cons, gtssStep] using ih

/-- Claim C4 counterexample: with a generator that raises for label `0`
("healthy") and succeeds for label `1` ("rot"), requesting both classes
aborts with an exception (`none`) — the successfully generated samples of
class `1` are not kept — whereas the recovering behaviour the claim asserts
would return exactly those samples. -/
theorem C4_counterexample :
    generate_targeted_synthetic_samples genFail1 [0, 1] 2 = none ∧
    generateTargetedRecovering genFail1 [0, 1] 2 = [(7, 1)] := by
  constructor <;> rfl

/-- Claim C4 (amended): a synthetic-generation failure for any requested
defect type propagates out of `generate_targeted_synthetic_samples` as an
exception, discarding whatever was generated for the other classes; since
`active_learning_loop` calls it without a handler, the exception aborts the
whole iteration.  (Each requested class triggers at least one generator call
because `samples_needed = max(1, ...) ≥ 1`.) -/
theorem C4_failure_propagates (gen : ℕ → Option ℕ) (types : List ℕ) (n : ℕ)
    (t : ℕ) (ht : t ∈ types) (hfail : gen t = none) :
    generate_targeted_synthetic_samples gen types n = none := by
  unfold generate_targeted_synthetic_samples
  have htd : t ∈ dedupFirst types := mem_dedupFirst ht
  have key : ∀ (l : List ℕ) (acc : Option (List (ℕ × ℕ))), t ∈ l →
      l.foldl (gtssStep gen types n) acc = none := by
    intro l
    induction l with
    | nil => intro acc h; simp at h
    | cons a tl ih =>
        intro acc h
        simp only [List.foldl_cons]
        rcases List.mem_cons.mp h with rfl | h'
        · rw [gtssStep_fail gen types n hfail acc]
          exact foldl_gtssStep_none gen types n tl
        · exact ih _ h'
  exact key (dedupFirst types) (some []) htd

/-- Claim C4 witness: the amended statement at the failing-generator fixture,
with the failing label `0` requested alongside label `1`. -/
theorem C4_witness :
    ((0:ℕ) ∈ [0, 1] ∧ genFail1 0 = none) ∧
    generate_targeted_synthetic_samples genFail1 [0, 1] 5 = none :=
  ⟨⟨by decide, rfl⟩, C4_failure_propagates genFail1 [0, 1] 5 0 (by decide) rfl⟩

/-! ## Claim C9: active-learning loop termination and best-model tracking -/

theorem exp_sq_gt : (17:ℝ)/3 < Real.exp 1 * Real.exp 1 := by
  nlinarith [Real.exp_one_gt_d9]

theorem exp_neg_two_lt : Real.exp (-2) < 3/17 := by
  have hprod : Real.exp (-2) * (Real.exp 1 * Real.exp 1) = 1 := by
    rw [← Real.exp_add, ← Real.exp_add]
    norm_num
  have hpos : 0 < Real.exp (-2) := Real.exp_pos _
  nlinarith [exp_sq_gt]

theorem deg_biasModel (b : ℝ) : membershipDegree (biasModel b) (fun _ => 0) 0 0 = 1 := by
  show gaussian_membership 0 ((biasModel b).centers 0 0) ((biasModel b).widths 0 0) = 1
  simp only [biasModel, flatModel]
  unfold gaussian_membership
  norm_num

theorem rules_biasModel (b : ℝ) : generate_rules (biasModel b) (fun _ => 0) 0 = 1 := by
  unfold generate_rules
  rw [if_pos ⟨Nat.one_pos, Nat.one_pos⟩]
  unfold strengthLoop
  rw [show List.range (biasModel b).n_inputs = [0] from rfl]
  simp [deg_biasModel b]

theorem rule_output_biasModel (b : ℝ) : rule_output (biasModel b) (fun _ => 0) 0 = b := by
  unfold rule_output
  simp [biasModel, flatModel]

theorem forward_biasModel (b : ℝ) : forward_pass (biasModel b) (fun _ => 0) = sigmoid b := by
  unfold forward_pass strengthDenom weightedSum strengthSum
  rw [show (biasModel b).n_rules = 1 from rfl, Finset.sum_range_one, Finset.sum_range_one,
    rules_biasModel b, rule_output_biasModel b, one_mul, if_neg one_ne_zero, div_one]

theorem conf_good : ¬ (confidence (sigmoid 2) < 7/10) := by
  have hhalf : 1/2 < sigmoid 2 := sigmoid_gt_half (by norm_num)
  have h85 : (17:ℝ)/20 ≤ sigmoid 2 := by
    show (17:ℝ)/20 ≤ 1 / (1 + Real.exp (-2))
    rw [le_div_iff₀ (by positivity)]
    have := exp_neg_two_lt
    linarith
  unfold confidence
  rw [abs_of_nonneg (by linarith), not_lt]
  linarith

theorem conf_bad : ¬ (confidence (sigmoid (-2)) < 7/10) := by
  have hs : sigmoid (-2) = 1 / (1 + Real.exp 2) := by
    unfold sigmoid
    norm_num
  have hhalf : sigmoid (-2) < 1/2 := sigmoid_lt_half (by norm_num)
  have h15 : sigmoid (-2) ≤ (3:ℝ)/20 := by
    rw [hs, div_le_iff₀ (by positivity)]
    have h2 : (17:ℝ)/3 < Real.exp 2 := by
      rw [show (2:ℝ) = 1 + 1 by norm_num, Real.exp_add]
      exact exp_sq_gt
    linarith
  unfold confidence
  rw [abs_of_nonpos (by linarith), not_lt]
  linarith

theorem uncertain_empty_good :
    identify_uncertain_samples (biasModel 2) 1 (fun _ _ => 0) (7/10) = [] := by
  unfold identify_uncertain_samples
  rw [show List.range 1 = [0] from rfl]
  have hc : ¬ (confidence (predict_proba (biasModel 2) ((fun _ _ => (0:ℝ)) 0)) < 7/10) := by
    show ¬ (confidence (predict_proba (biasModel 2) (fun _ => 0)) < 7/10)
    rw [show predict_proba (biasModel 2) (fun _ => 0) = sigmoid 2 from forward_biasModel 2]
    exact conf_good
  simp [List.filter, decide_eq_false hc]

theorem uncertain_empty_bad :
    identify_uncertain_samples (biasModel (-2)) 1 (fun _ _ => 0) (7/10) = [] := by
  unfold identify_uncertain_samples
  rw [show List.range 1 = [0] from rfl]
  have hc : ¬ (confidence (predict_proba (biasModel (-2)) ((fun _ _ => (0:ℝ)) 0)) < 7/10) := by
    show ¬ (confidence (predict_proba (biasModel (-2)) (fun _ => 0)) < 7/10)
    rw [show predict_proba (biasModel (-2)) (fun _ => 0) = sigmoid (-2) from
      forward_biasModel (-2)]
    exact conf_bad
  simp [List.filter, decide_eq_false hc]

theorem predictBin_good : predictBin (biasModel 2) (fun _ => 0) = 1 := by
  unfold predictBin
  rw [forward_biasModel 2, if_pos (sigmoid_gt_half (by norm_num))]

theorem predictBin_bad : predictBin (biasModel (-2)) (fun _ => 0) = 0 := by
  unfold predictBin
  rw [forward_biasModel (-2), if_neg (not_lt.mpr (sigmoid_lt_half (by norm_num)).le)]

theorem evalF1_good : evalF1 (biasModel 2) 1 (fun _ _ => 0) (fun _ => 1) = 1 := by
  have hTP : truePos (biasModel 2) 1 (fun _ _ => 0) (fun _ => 1) = 1 := by
    unfold truePos
    rw [show List.range 1 = [0] from rfl]
    have hP : (predictBin (biasModel 2) fun _ => 0) = 1 := predictBin_good
    simp [List.filter, decide_eq_true hP]
  have hFP : falsePos (biasModel 2) 1 (fun _ _ => 0) (fun _ => 1) = 0 := by
    unfold falsePos
    rw [show List.range 1 = [0] from rfl]
    have hP : ¬ (predictBin (biasModel 2) ((fun _ _ => (0:ℝ)) 0) = 1 ∧ ((1:ℝ) = 0)) := by
      intro h
      exact one_ne_zero h.2
    simp [List.filter, decide_eq_false hP]
  have hFN : falseNeg (biasModel 2) 1 (fun _ _ => 0) (fun _ => 1) = 0 := by
    unfold falseNeg
    rw [show List.range 1 = [0] from rfl]
    have hP : ¬ ((predictBin (biasModel 2) fun _ => 0) = 0) := by
      rw [predictBin_good]
      exact one_ne_zero
    simp [List.filter, decide_eq_false hP]
  unfold evalF1
  rw [hTP, hFP, hFN]
  norm_num

theorem evalF1_bad : evalF1 (biasModel (-2)) 1 (fun _ _ => 0) (fun _ => 1) = 0 := by
  have hTP : truePos (biasModel (-2)) 1 (fun _ _ => 0) (fun _ => 1) = 0 := by
    unfold truePos
    rw [show List.range 1 = [0] from rfl]
    have hP : ¬ ((predictBin (biasModel (-2)) fun _ => 0) = 1) := by
      rw [predictBin_bad]
      exact zero_ne_one
    simp [List.filter, decide_eq_false hP]
  unfold evalF1
  rw [hTP]
  norm_num

theorem alBreak_iters (tf : List ℕ → List ℕ → Model) (nV : ℕ) (Xv : ℕ → ℕ → ℝ)
    (yv : ℕ → ℝ) (s : ALState) : (alBreak tf nV Xv yv s).iters = s.iters + 1 := by
  unfold alBreak
  split <;> rfl

theorem alStep1_iters (tf : List ℕ → List ℕ → Model)
    (ag : Model → List ℕ → List (ℕ × ℕ)) (nV : ℕ) (Xv : ℕ → ℕ → ℝ) (yv : ℕ → ℝ)
    (θ : ℝ) (s : ALState) : (alStep1 tf ag nV Xv yv θ s).iters = s.iters + 1 := by
  show (alBreak tf nV Xv yv s).iters = s.iters + 1
  exact alBreak_iters tf nV Xv yv s

theorem alTraj_iters (tf : List ℕ → List ℕ → Model)
    (ag : Model → List ℕ → List (ℕ × ℕ)) (nV : ℕ) (Xv : ℕ → ℕ → ℝ) (yv : ℕ → ℝ)
    (θ : ℝ) (s : ALState) :
    ∀ i, (alTraj tf ag nV Xv yv θ s i).iters = s.iters + i := by
  intro i
  induction i with
  | zero => rfl
  | succ i ih =>
      show (alStep1 tf ag nV Xv yv θ (alTraj tf ag nV Xv yv θ s i)).iters = s.iters + (i + 1)
      rw [alStep1_iters, ih]
      omega

theorem alTraj_shift (tf : List ℕ → List ℕ → Model)
    (ag : Model → List ℕ → List (ℕ × ℕ)) (nV : ℕ) (Xv : ℕ → ℕ → ℝ) (yv : ℕ → ℝ)
    (θ : ℝ) (s : ALState) :
    ∀ j, alTraj tf ag nV Xv yv θ (alStep1 tf ag nV Xv yv θ s) j =
      alTraj tf ag nV Xv yv θ s (j + 1) := by
  intro j
  induction j with
  | zero => rfl
  | succ j ih =>
      show alStep1 tf ag nV Xv yv θ (alTraj tf ag nV Xv yv θ (alStep1 tf ag nV Xv yv θ s) j)
        = alStep1 tf ag nV Xv yv θ (alTraj tf ag nV Xv yv θ s (j + 1))
      rw [ih]

theorem alLoop_succ (tf : List ℕ → List ℕ → Model)
    (ag : Model → List ℕ → List (ℕ × ℕ)) (nV : ℕ) (Xv : ℕ → ℕ → ℝ) (yv : ℕ → ℝ)
    (θ : ℝ) (fuel : ℕ) (s : ALState) :
    alLoop tf ag nV Xv yv θ (fuel + 1) s =
      if identify_uncertain_samples (tf s.feats s.labels) nV Xv θ = [] then
        alBreak tf nV Xv yv s
      else alLoop tf ag nV Xv yv θ fuel (alStep1 tf ag nV Xv yv θ s) := rfl

theorem alLoop_iters_le (tf : List ℕ → List ℕ → Model)
    (ag : Model → List ℕ → List (ℕ × ℕ)) (nV : ℕ) (Xv : ℕ → ℕ → ℝ) (yv : ℕ → ℝ)
    (θ : ℝ) : ∀ (fuel : ℕ) (s : ALState),
      (alLoop tf ag nV Xv yv θ fuel s).iters ≤ s.iters + fuel := by
  intro fuel
  induction fuel with
  | zero =>
      intro s
      rw [show alLoop tf ag nV Xv yv θ 0 s = s from rfl]
      omega
  | succ fuel ih =>
      intro s
      rw [alLoop_succ]
      by_cases h : identify_uncertain_samples (tf s.feats s.labels) nV Xv θ = []
      · rw [if_pos h, alBreak_iters]
        omega
      · rw [if_neg h]
        have hstep := ih (alStep1 tf ag nV Xv yv θ s)
        rw [alStep1_iters] at hstep
        omega

theorem alLoop_break_at (tf : List ℕ → List ℕ → Model)
    (ag : Model → List ℕ → List (ℕ × ℕ)) (nV : ℕ) (Xv : ℕ → ℕ → ℝ) (yv : ℕ → ℝ)
    (θ : ℝ) : ∀ (fuel : ℕ) (s : ALState) (i : ℕ), i < fuel →
      (∀ j, j < i → ¬ uncertainFree tf nV Xv θ (alTraj tf ag nV Xv yv θ s j)) →
      uncertainFree tf nV Xv θ (alTraj tf ag nV Xv yv θ s i) →
      alLoop tf ag nV Xv yv θ fuel s =
        alBreak tf nV Xv yv (alTraj tf ag nV Xv yv θ s i) := by
  intro fuel
  induction fuel with
  | zero => intro s i hi _ _; exact absurd hi (Nat.not_lt_zero i)
  | succ fuel ih =>
      intro s i hi hall hfree
      rw [alLoop_succ]
      cases i with
      | zero =>
          have hfree2 : identify_uncertain_samples (tf s.feats s.labels) nV Xv θ = [] := hfree
          rw [if_pos hfree2]
          rfl
      | succ i =>
          have h0 : ¬ identify_uncertain_samples (tf s.feats s.labels) nV Xv θ = [] :=
            hall 0 (Nat.succ_pos i)
          rw [if_neg h0]
          have ihall : ∀ j, j < i →
              ¬ uncertainFree tf nV Xv θ
                (alTraj tf ag nV Xv yv θ (alStep1 tf ag nV Xv yv θ s) j) := by
            intro j hj
            rw [alTraj_shift]
            exact hall (j + 1) (by omega)
          have ihfree : uncertainFree tf nV Xv θ
              (alTraj tf ag nV Xv yv θ (alStep1 tf ag nV Xv yv θ s) i) := by
            rw [alTraj_shift]
            exact hfree
          rw [ih (alStep1 tf ag nV Xv yv θ s) i (by omega) ihall ihfree, alTraj_shift]

theorem alLoop_exhaust (tf : List ℕ → List ℕ → Model)
    (ag : Model → List ℕ → List (ℕ × ℕ)) (nV : ℕ) (Xv : ℕ → ℕ → ℝ) (yv : ℕ → ℝ)
    (θ : ℝ) : ∀ (fuel : ℕ) (s : ALState),
      (∀ j, j < fuel → ¬ uncertainFree tf nV Xv θ (alTraj tf ag nV Xv yv θ s j)) →
      alLoop tf ag nV Xv yv θ fuel s = alTraj tf ag nV Xv yv θ s fuel := by
  intro fuel
  induction fuel with
  | zero => intro s _; rfl
  | succ fuel ih =>
      intro s hall
      have h0 : ¬ identify_uncertain_samples (tf s.feats s.labels) nV Xv θ = [] :=
        hall 0 (Nat.succ_pos fuel)
      rw [alLoop_succ, if_neg h0]
      rw [ih (alStep1 tf ag nV Xv yv θ s)
        (fun j hj => by rw [alTraj_shift]; exact hall (j + 1) (by omega))]
      exact alTraj_shift tf ag nV Xv yv θ s fuel

/-- Claim C9 (amended): the loop stops exactly when no uncertain validation
samples remain or when `max_iterations` iterations have run, whichever comes
first — it never runs more than `max_iterations` iterations; if iterations
`0..i-1` each leave uncertain samples and iteration `i+1`'s model leaves
none, the loop returns that iteration's train/track-best state after exactly
`i + 1` iterations; and if no iteration within `max_iterations` is
uncertain-free it runs all `max_iterations` full iterations.  In particular,
when iteration 1 finds zero uncertain samples the loop terminates after
iteration 1 — and returns iteration 1's trained model as the best model
provided its F1 score is positive; with F1 equal to `0.0` the strict
`performance > best_performance` check (against the `0.0` initialization)
never fires and `None` is returned instead (see the counterexample). -/
theorem C9_terminal_condition (trainFn : List ℕ → List ℕ → Model)
    (analyzeGen : Model → List ℕ → List (ℕ × ℕ)) (nVal : ℕ) (Xval : ℕ → ℕ → ℝ)
    (yval : ℕ → ℝ) (threshold : ℝ) (maxIter : ℕ) (feats0 labels0 : List ℕ) :
    (active_learning_loop trainFn analyzeGen nVal Xval yval threshold maxIter
      feats0 labels0).iters ≤ maxIter ∧
    (∀ i, i < maxIter →
      (∀ j, j < i → ¬ uncertainFree trainFn nVal Xval threshold
        (alTraj trainFn analyzeGen nVal Xval yval threshold ⟨feats0, labels0, none, 0, 0⟩ j)) →
      uncertainFree trainFn nVal Xval threshold
        (alTraj trainFn analyzeGen nVal Xval yval threshold ⟨feats0, labels0, none, 0, 0⟩ i) →
      active_learning_loop trainFn analyzeGen nVal Xval yval threshold maxIter feats0 labels0 =
        alBreak trainFn nVal Xval yval
          (alTraj trainFn analyzeGen nVal Xval yval threshold ⟨feats0, labels0, none, 0, 0⟩ i) ∧
      (active_learning_loop trainFn analyzeGen nVal Xval yval threshold maxIter
        feats0 labels0).iters = i + 1) ∧
    ((∀ j, j < maxIter → ¬ uncertainFree trainFn nVal Xval threshold
        (alTraj trainFn analyzeGen nVal Xval yval threshold ⟨feats0, labels0, none, 0, 0⟩ j)) →
      active_learning_loop trainFn analyzeGen nVal Xval yval threshold maxIter feats0 labels0 =
        alTraj trainFn analyzeGen nVal Xval yval threshold ⟨feats0, labels0, none, 0, 0⟩ maxIter ∧
      (active_learning_loop trainFn analyzeGen nVal Xval yval threshold maxIter
        feats0 labels0).iters = maxIter) ∧
    (1 ≤ maxIter →
      uncertainFree trainFn nVal Xval threshold (⟨feats0, labels0, none, 0, 0⟩ : ALState) →
      (active_learning_loop trainFn analyzeGen nVal Xval yval threshold maxIter
        feats0 labels0).iters = 1 ∧
      (0 < evalF1 (trainFn feats0 labels0) nVal Xval yval →
        (active_learning_loop trainFn analyzeGen nVal Xval yval threshold maxIter
          feats0 labels0).best = some (trainFn feats0 labels0))) := by
  refine ⟨?_, ?_, ?_, ?_⟩
  · have h := alLoop_iters_le trainFn analyzeGen nVal Xval yval threshold maxIter
      ⟨feats0, labels0, none, 0, 0⟩
    simpa [active_learning_loop] using h
  · intro i hi hall hfree
    have h := alLoop_break_at trainFn analyzeGen nVal Xval yval threshold maxIter
      ⟨feats0, labels0, none, 0, 0⟩ i hi hall hfree
    refine ⟨h, ?_⟩
    have h2 : active_learning_loop trainFn analyzeGen nVal Xval yval threshold maxIter
        feats0 labels0 = alBreak trainFn nVal Xval yval
        (alTraj trainFn analyzeGen nVal Xval yval threshold ⟨feats0, labels0, none, 0, 0⟩ i) := h
    rw [h2, alBreak_iters, alTraj_iters]
    simp
  · intro hall
    have h := alLoop_exhaust trainFn analyzeGen nVal Xval yval threshold maxIter
      ⟨feats0, labels0, none, 0, 0⟩ hall
    refine ⟨h, ?_⟩
    have h2 : active_learning_loop trainFn analyzeGen nVal Xval yval threshold maxIter
        feats0 labels0 = alTraj trainFn analyzeGen nVal Xval yval threshold
        ⟨feats0, labels0, none, 0, 0⟩ maxIter := h
    rw [h2, alTraj_iters]
    simp
  · intro hmax hfree
    have h := alLoop_break_at trainFn analyzeGen nVal Xval yval threshold maxIter
      ⟨feats0, labels0, none, 0, 0⟩ 0 (by omega)
      (fun j hj => absurd hj (Nat.not_lt_zero j)) hfree
    have h2 : active_learning_loop trainFn analyzeGen nVal Xval yval threshold maxIter
        feats0 labels0 = alBreak trainFn nVal Xval yval
        (⟨feats0, labels0, none, 0, 0⟩ : ALState) := h
    constructor
    · rw [h2, alBreak_iters]
    · intro hf1
      rw [h2]
      unfold alBreak
      rw [if_pos hf1]

/-- Claim C9 witness: the terminal-condition theorem instantiated at a
constant trainer returning the confidently-correct fixture `biasModel 2`
(no uncertain samples in iteration 1, F1 = 1 > 0), with `max_iterations = 3`:
the loop runs exactly one iteration and returns that model as best. -/
theorem C9_witness :
    ((1:ℕ) ≤ 3 ∧
      uncertainFree (fun _ _ => biasModel 2) 1 (fun _ _ => 0) (7/10) ⟨[], [], none, 0, 0⟩) ∧
    (active_learning_loop (fun _ _ => biasModel 2) (fun _ _ => []) 1 (fun _ _ => 0)
      (fun _ => 1) (7/10) 3 [] []).iters = 1 ∧
    (active_learning_loop (fun _ _ => biasModel 2) (fun _ _ => []) 1 (fun _ _ => 0)
      (fun _ => 1) (7/10) 3 [] []).best = some (biasModel 2) := by
  have hfree : uncertainFree (fun _ _ => biasModel 2) 1 (fun _ _ => 0) (7/10)
      ⟨[], [], none, 0, 0⟩ := uncertain_empty_good
  have h := (C9_terminal_condition (fun _ _ => biasModel 2) (fun _ _ => []) 1
    (fun _ _ => 0) (fun _ => 1) (7/10) 3 [] []).2.2.2 (by norm_num) hfree
  exact ⟨⟨by norm_num, hfree⟩, h.1, h.2 (by norm_num [evalF1_good])⟩

/-- Claim C9 counterexample: a first-iteration model that is confidently
wrong on the single validation sample (so no uncertain samples remain, and
F1 = 0).  The loop terminates after iteration 1 as the claim says, but it
returns `None` as the best model, not iteration 1's trained model, because
`f1 > best_performance` fails at `0.0 > 0.0`. -/
theorem C9_counterexample :
    (active_learning_loop (fun _ _ => biasModel (-2)) (fun _ _ => []) 1 (fun _ _ => 0)
      (fun _ => 1) (7/10) 3 [] []).iters = 1 ∧
    (active_learning_loop (fun _ _ => biasModel (-2)) (fun _ _ => []) 1 (fun _ _ => 0)
      (fun _ => 1) (7/10) 3 [] []).best = none := by
  have hf : ¬ ((0:ℝ) < evalF1 (biasModel (-2)) 1 (fun _ _ => 0) (fun _ => 1)) := by
    rw [evalF1_bad]
    norm_num
  unfold active_learning_loop
  rw [show (3:ℕ) = 2 + 1 from rfl, alLoop, uncertain_empty_bad]
  simp [hf]

/-! ## Claim C2: best-snapshot restore after early stopping -/

theorem backward_width_ge (m : Model) (n : ℕ) (X : ℕ → ℕ → ℝ) (y : ℕ → ℝ) (lr : ℝ)
    (i j : ℕ) (hi : i < m.n_inputs) (hj : j < m.n_mfs) :
    (0.01 : ℝ) ≤ (backward_pass m n X y lr).widths i j := by
  show (0.01 : ℝ) ≤
    (if i < m.n_inputs ∧ j < m.n_mfs then newWidth m n X y lr i j else m.widths i j)
  rw [if_pos ⟨hi, hj⟩]
  exact le_max_right _ _

theorem forward_zero_rules (m : Model) (h : m.n_rules = 0) (xv : ℕ → ℝ) :
    forward_pass m xv = 1/2 := by
  unfold forward_pass weightedSum strengthDenom strengthSum
  rw [h]
  simp [sigmoid_zero]

theorem batchMean_one (f : ℕ → ℝ) : batchMean 1 f = f 0 := by
  unfold batchMean
  rw [Finset.sum_range_one]
  norm_num

theorem gradOutput_zero_rules (m : Model) (h : m.n_rules = 0) (X : ℕ → ℕ → ℝ) (k : ℕ) :
    gradOutput m 1 X (fun _ => 0) k = 1/2 := by
  unfold gradOutput clippedPred
  rw [forward_zero_rules m h, clipPred_half]
  norm_num

theorem valLoss_const (m : Model) (h : m.n_rules = 0) (X : ℕ → ℕ → ℝ) :
    valLoss m 1 X (fun _ => 0) = -(Real.log (1/2 + 1e-15)) := by
  unfold valLoss
  simp only [forward_zero_rules m h]
  rw [batchMean_one]
  norm_num

theorem bp_center_step (m : Model) (hI : 0 < m.n_inputs) (hM : 0 < m.n_mfs)
    (hR : m.n_rules = 0) :
    (backward_pass m 1 (fun _ _ => 1) (fun _ => 0) 1).centers 0 0 =
      m.centers 0 0 - 1/2 * membershipDegree m (fun _ => 1) 0 0 *
        (1 - m.centers 0 0) / m.widths 0 0 ^ 2 := by
  show (if 0 < m.n_inputs ∧ 0 < m.n_mfs then
      newCenter m 1 (fun _ _ => 1) (fun _ => 0) 1 0 0 else m.centers 0 0) = _
  rw [if_pos ⟨hI, hM⟩]
  unfold newCenter
  rw [batchMean_one, gradOutput_zero_rules m hR]
  show m.centers 0 0 - 1 * (1/2 * membershipDegree m (fun _ => 1) 0 0 *
    (1 - m.centers 0 0) / m.widths 0 0 ^ 2) = _
  ring

theorem trainLoop_two_epochs (P : ℕ → ℕ → ℕ) (n : ℕ) (X : ℕ → ℕ → ℝ) (y : ℕ → ℝ)
    (nV : ℕ) (Xv : ℕ → ℕ → ℝ) (yv : ℕ → ℝ) (lr : ℝ) (bs : ℕ) (pat : ℕ) (m0 : Model)
    (hpat : 1 ≤ pat) :
    trainLoop m0 P n X y nV Xv yv 2 lr pat bs =
      updateBest
        (epochStep (P (0+1)) n X y nV Xv yv lr bs
          (updateBest (epochStep (P 0) n X y nV Xv yv lr bs m0).1
            (epochStep (P 0) n X y nV Xv yv lr bs m0).2 ⟨m0, none, 0⟩).model).1
        (epochStep (P (0+1)) n X y nV Xv yv lr bs
          (updateBest (epochStep (P 0) n X y nV Xv yv lr bs m0).1
            (epochStep (P 0) n X y nV Xv yv lr bs m0).2 ⟨m0, none, 0⟩).model).2
        (updateBest (epochStep (P 0) n X y nV Xv yv lr bs m0).1
          (epochStep (P 0) n X y nV Xv yv lr bs m0).2 ⟨m0, none, 0⟩) := by
  unfold trainLoop
  show trainEpochs P n X y nV Xv yv lr bs pat (1+1) 0 ⟨m0, none, 0⟩ = _
  simp only [trainEpochs]
  rw [show (updateBest (epochStep (P 0) n X y nV Xv yv lr bs m0).1
      (epochStep (P 0) n X y nV Xv yv lr bs m0).2 ⟨m0, none, 0⟩).patienceCtr = 0 from rfl]
  rw [if_neg (by omega)]
  show trainEpochs P n X y nV Xv yv lr bs pat (0+1) (0+1) _ = _
  simp only [trainEpochs]
  rw [ite_self]

/-- Claim C2 divergence theorem (code bug): on the concrete two-epoch run
with a zero-rule model (constant prediction, hence tied validation losses:
the best snapshot is epoch 1's), one training sample `x = 1`, target `0`,
learning rate `1`, `patience = 20`, the model returned by `train` carries the
*final* epoch's membership center — strictly below epoch 1's — because the
snapshot's membership arrays alias the live ones (shallow `dict.copy`), while
the spec-faithful deep restore `trainClaimRestore` returns epoch 1's center.
The claim says both coincide; they differ. -/
theorem C2_restore_divergence :
    (train mC2 permsC2 1 XC2 yC2 1 XC2 yC2 2 1 20 32).centers 0 0 <
    (trainClaimRestore mC2 permsC2 1 XC2 yC2 1 XC2 yC2 2 1 20 32).centers 0 0 := by
  have hloop : trainLoop mC2 permsC2 1 XC2 yC2 1 XC2 yC2 2 1 20 32 = state2C2 :=
    (trainLoop_two_epochs permsC2 1 XC2 yC2 1 XC2 yC2 1 32 20 mC2 (by norm_num)).trans rfl
  have hvl : epoch2C2.2 = epoch1C2.2 := by
    have h1 : epoch1C2.2 =
        valLoss (backward_pass mC2 1 XC2 (fun _ => 0) 1) 1 XC2 (fun _ => 0) := rfl
    have h2 : epoch2C2.2 =
        valLoss (backward_pass state1C2.model 1 XC2 (fun _ => 0) 1) 1 XC2 (fun _ => 0) := rfl
    rw [h1, h2, valLoss_const _ rfl XC2, valLoss_const _ rfl XC2]
  have hstate2 : state2C2 =
      ⟨epoch2C2.1, some ⟨epoch1C2.2, epoch1C2.1.centers, epoch1C2.1.widths,
        epoch1C2.1.consequents⟩, 0 + 1⟩ := by
    have hsplit : state2C2 = if epoch2C2.2 < epoch1C2.2 then
        (⟨epoch2C2.1, some ⟨epoch2C2.2, epoch2C2.1.centers, epoch2C2.1.widths,
          epoch2C2.1.consequents⟩, 0⟩ : TrainState)
      else ⟨epoch2C2.1, some ⟨epoch1C2.2, epoch1C2.1.centers, epoch1C2.1.widths,
          epoch1C2.1.consequents⟩, 0 + 1⟩ := rfl
    rw [hsplit, hvl, if_neg (lt_irrefl _)]
  have hc_code : (train mC2 permsC2 1 XC2 yC2 1 XC2 yC2 2 1 20 32).centers 0 0 =
      epoch2C2.1.centers 0 0 := by
    unfold train
    rw [hloop, hstate2]
  have hc_spec : (trainClaimRestore mC2 permsC2 1 XC2 yC2 1 XC2 yC2 2 1 20 32).centers 0 0 =
      epoch1C2.1.centers 0 0 := by
    unfold trainClaimRestore
    rw [hloop, hstate2]
  rw [hc_code, hc_spec]
  have he1 : epoch1C2.1.centers 0 0 =
      (backward_pass mC2 1 (fun _ _ => 1) (fun _ => 0) 1).centers 0 0 := rfl
  have he2 : epoch2C2.1.centers 0 0 =
      (backward_pass state1C2.model 1 (fun _ _ => 1) (fun _ => 0) 1).centers 0 0 := rfl
  have hc1 := bp_center_step mC2 (by decide) (by decide) rfl
  have hgpos : 0 < membershipDegree mC2 (fun _ => 1) 0 0 :=
    gaussian_membership_pos _ _ _
  have hA : (backward_pass mC2 1 (fun _ _ => 1) (fun _ => 0) 1).centers 0 0 < 0 := by
    rw [hc1]
    rw [show mC2.centers 0 0 = 0 from rfl, show mC2.widths 0 0 = 1 from rfl]
    norm_num
    linarith
  have hw1 : (0.01 : ℝ) ≤ (backward_pass mC2 1 (fun _ _ => 1) (fun _ => 0) 1).widths 0 0 :=
    backward_width_ge mC2 1 _ _ 1 0 0 (by decide) (by decide)
  have hc2 := bp_center_step state1C2.model (by decide) (by decide) rfl
  have hrel : state1C2.model.centers 0 0 =
      (backward_pass mC2 1 (fun _ _ => 1) (fun _ => 0) 1).centers 0 0 := rfl
  have hrelw : state1C2.model.widths 0 0 =
      (backward_pass mC2 1 (fun _ _ => 1) (fun _ => 0) 1).widths 0 0 := rfl
  have hdeg2 : 0 < membershipDegree state1C2.model (fun _ => 1) 0 0 :=
    gaussian_membership_pos _ _ _
  rw [he1, he2, hc2, hrel, hrelw]
  have h1A : 0 < 1 - (backward_pass mC2 1 (fun _ _ => 1) (fun _ => 0) 1).centers 0 0 := by
    linarith
  have hWpos : 0 < (backward_pass mC2 1 (fun _ _ => 1) (fun _ => 0) 1).widths 0 0 := by
    linarith
  have ht : 0 < 1/2 * membershipDegree state1C2.model (fun _ => 1) 0 0 *
      (1 - (backward_pass mC2 1 (fun _ _ => 1) (fun _ => 0) 1).centers 0 0) /
      (backward_pass mC2 1 (fun _ _ => 1) (fun _ => 0) 1).widths 0 0 ^ 2 :=
    div_pos (by positivity) (pow_pos hWpos 2)
  exact sub_lt_self _ ht

end
